import Mathlib

/-!
Verification development for the debate backend of
`multi-agent-debate-visualizer` (`backend/graph_converter.py`).

The Python source is shallowly embedded: Python `dict`s become association
lists with insertion-order update semantics (`dGet` / `dSet`), Python strings
become Lean `String`s (ASCII model of `str.strip`, `str.lower` and the regex
character class `\s`), `json.loads` becomes the fuel-indexed recursive-descent
function `jsonParse` following CPython's `json/decoder.py` scanner, and the
async generator `run_debate`'s round loop becomes the state-passing functions
`nodeStep` / `stepNodes` / `runRounds` over an explicit event list.  Fallible
Python code (uncaught exceptions) is modelled with `Except`.
-/

/-! ## Python string helpers -/

/-- Characters removed by Python `str.strip()` (ASCII fragment). -/
def pyWs (c : Char) : Bool :=
  c = ' ' || c = '\t' || c = '\n' || c = '\r' || c = '\x0b' || c = '\x0c'

/-- Model of Python `str.strip()` on a character list. -/
def pyStripChars (cs : List Char) : List Char :=
  ((cs.dropWhile pyWs).reverse.dropWhile pyWs).reverse

/-- Model of Python `str.strip()`. -/
def pyStripS (s : String) : String :=
  String.mk (pyStripChars s.data)

/-- Model of Python `str.lower()` on one character (ASCII fragment). -/
def pyCharLower (c : Char) : Char :=
  if 'A' ≤ c ∧ c ≤ 'Z' then Char.ofNat (c.toNat + 32) else c

/-- Model of Python `str.lower()` (ASCII fragment). -/
def pyLowerS (s : String) : String :=
  String.mk (s.data.map pyCharLower)

/-- Model of Python `sep.join(parts)`. -/
def pyJoin (sep : String) : List String → String
  | [] => ""
  | x :: xs => xs.foldl (fun acc y => acc ++ sep ++ y) x

/-- Does `cs` begin with the character list `p`? -/
def startsWithChars : List Char → List Char → Bool
  | [], _ => true
  | _ :: _, [] => false
  | p :: ps, c :: cs => p = c && startsWithChars ps cs

/-- Does `s` contain `pat` as a contiguous substring? -/
def containsSub (pat : List Char) : List Char → Bool
  | [] => startsWithChars pat []
  | c :: cs => startsWithChars pat (c :: cs) || containsSub pat cs

/-! ## Python `dict` model

A Python `dict` is modelled as an association list without duplicate keys
(when built through `dSet`).  `dSet` updates an existing key in place
(preserving the key's insertion position, as CPython does) and otherwise
appends, so iteration order of the list matches CPython's iteration order. -/

/-- First value stored under `key`, like Python `d.get(key)`. -/
def dGet {κ α : Type} [DecidableEq κ] : List (κ × α) → κ → Option α
  | [], _ => none
  | p :: rest, key => if p.1 = key then some p.2 else dGet rest key

/-- Key membership, like Python `key in d`. -/
def dMem {κ α : Type} [DecidableEq κ] (d : List (κ × α)) (key : κ) : Bool :=
  (dGet d key).isSome

/-- Python `d[key] = v`: update in place if present, else append. -/
def dSet {κ α : Type} [DecidableEq κ] : List (κ × α) → κ → α → List (κ × α)
  | [], key, v => [(key, v)]
  | p :: rest, key, v =>
    if p.1 = key then (p.1, v) :: rest else p :: dSet rest key v

/-! ## JSON values and a model of `json.loads`

`Json.num` stores the raw numeric lexeme; `jsonParse` follows CPython's
`json.decoder` (strict mode): object/array/string/keyword/number dispatch,
JSON whitespace between tokens, last-duplicate-wins object keys with
first-occurrence ordering, `NaN`/`Infinity`/`-Infinity` constants, and
rejection of control characters and bad escapes inside strings. -/

inductive Json where
  | null
  | bool (b : Bool)
  | num (raw : String)
  | str (s : String)
  | arr (elems : List Json)
  | obj (fields : List (String × Json))

/-- JSON inter-token whitespace (`' '`, `'\t'`, `'\n'`, `'\r'`). -/
def jsonWs (c : Char) : Bool :=
  c = ' ' || c = '\t' || c = '\n' || c = '\r'

def skipJWs (cs : List Char) : List Char :=
  cs.dropWhile jsonWs

def isDigitB (c : Char) : Bool :=
  decide (48 ≤ c.toNat) && decide (c.toNat ≤ 57)

/-- Strip an exact literal from the front of the input. -/
def stripLit : List Char → List Char → Option (List Char)
  | [], cs => some cs
  | p :: ps, c :: cs => if p = c then stripLit ps cs else none
  | _ :: _, [] => none

/-- Hexadecimal digit value. -/
def hexVal (c : Char) : Option Nat :=
  if 48 ≤ c.toNat ∧ c.toNat ≤ 57 then some (c.toNat - 48)
  else if 97 ≤ c.toNat ∧ c.toNat ≤ 102 then some (c.toNat - 87)
  else if 65 ≤ c.toNat ∧ c.toNat ≤ 70 then some (c.toNat - 55)
  else none

/-- Four hex digits of a `\uXXXX` escape. -/
def parseHex4 : List Char → Option (Nat × List Char)
  | a :: b :: c :: d :: rest =>
    match hexVal a, hexVal b, hexVal c, hexVal d with
    | some x, some y, some z, some w => some (((x * 16 + y) * 16 + z) * 16 + w, rest)
    | _, _, _, _ => none
  | _ => none

/-- Optional fraction and exponent of a JSON number (CPython `NUMBER_RE`). -/
def lexFracExp (cs : List Char) : List Char × List Char :=
  let fr : List Char × List Char :=
    match cs with
    | '.' :: r =>
      let ds := r.takeWhile isDigitB
      if ds = [] then ([], cs) else ('.' :: ds, r.drop ds.length)
    | _ => ([], cs)
  let cs1 := fr.2
  let ex : List Char × List Char :=
    match cs1 with
    | e :: r =>
      if e = 'e' ∨ e = 'E' then
        let sr : List Char × List Char :=
          match r with
          | s :: rr => if s = '+' ∨ s = '-' then ([s], rr) else ([], r)
          | [] => ([], r)
        let ds := sr.2.takeWhile isDigitB
        if ds = [] then ([], cs1) else (e :: (sr.1 ++ ds), sr.2.drop ds.length)
      else ([], cs1)
    | [] => ([], cs1)
  (fr.1 ++ ex.1, ex.2)

/-- Lex a JSON number (returns the raw lexeme), per CPython `NUMBER_RE`. -/
def lexNumber (cs : List Char) : Option (List Char × List Char) :=
  let sp : List Char × List Char :=
    match cs with
    | '-' :: r => (['-'], r)
    | _ => ([], cs)
  match sp.2 with
  | '0' :: r =>
    let t := lexFracExp r
    some (sp.1 ++ '0' :: t.1, t.2)
  | c :: r =>
    if isDigitB c then
      let ds := r.takeWhile isDigitB
      let t := lexFracExp (r.drop ds.length)
      some (sp.1 ++ c :: (ds ++ t.1), t.2)
    else none
  | [] => none

/-- JSON string body after the opening quote (CPython `py_scanstring`,
strict mode).  Returns the decoded characters and the rest of the input. -/
def parseJString : Nat → List Char → List Char → Option (List Char × List Char)
  | 0, _, _ => none
  | _ + 1, [], _ => none
  | fuel + 1, c :: rest, acc =>
    if c = '"' then some (acc.reverse, rest)
    else if c = '\\' then
      match rest with
      | [] => none
      | e :: rest2 =>
        if e = '"' then parseJString fuel rest2 ('"' :: acc)
        else if e = '\\' then parseJString fuel rest2 ('\\' :: acc)
        else if e = '/' then parseJString fuel rest2 ('/' :: acc)
        else if e = 'b' then parseJString fuel rest2 ('\x08' :: acc)
        else if e = 'f' then parseJString fuel rest2 ('\x0c' :: acc)
        else if e = 'n' then parseJString fuel rest2 ('\n' :: acc)
        else if e = 'r' then parseJString fuel rest2 ('\r' :: acc)
        else if e = 't' then parseJString fuel rest2 ('\t' :: acc)
        else if e = 'u' then
          match parseHex4 rest2 with
          | none => none
          | some (n, rest3) =>
            if 0xd800 ≤ n ∧ n ≤ 0xdbff then
              match rest3 with
              | '\\' :: 'u' :: rest4 =>
                match parseHex4 rest4 with
                | none => none
                | some (n2, rest5) =>
                  if 0xdc00 ≤ n2 ∧ n2 ≤ 0xdfff then
                    parseJString fuel rest5
                      (Char.ofNat (0x10000 + (n - 0xd800) * 1024 + (n2 - 0xdc00)) :: acc)
                  else parseJString fuel rest3 (Char.ofNat n :: acc)
              | _ => parseJString fuel rest3 (Char.ofNat n :: acc)
            else parseJString fuel rest3 (Char.ofNat n :: acc)
        else none
    else if c.toNat < 0x20 then none
    else parseJString fuel rest (c :: acc)

mutual

/-- CPython `scan_once`: dispatch on the first character. -/
def parseValue : Nat → List Char → Option (Json × List Char)
  | 0, _ => none
  | fuel + 1, cs =>
    match cs with
    | [] => none
    | c :: rest =>
      if c = '"' then
        match parseJString fuel rest [] with
        | some (content, rest2) => some (Json.str (String.mk content), rest2)
        | none => none
      else if c = '\x7b' then parseObjBody fuel rest
      else if c = '[' then parseArrBody fuel rest
      else
        match stripLit ['n', 'u', 'l', 'l'] cs with
        | some r => some (Json.null, r)
        | none =>
        match stripLit ['t', 'r', 'u', 'e'] cs with
        | some r => some (Json.bool true, r)
        | none =>
        match stripLit ['f', 'a', 'l', 's', 'e'] cs with
        | some r => some (Json.bool false, r)
        | none =>
        match lexNumber cs with
        | some (raw, r) => some (Json.num (String.mk raw), r)
        | none =>
        match stripLit ['N', 'a', 'N'] cs with
        | some r => some (Json.num "NaN", r)
        | none =>
        match stripLit ['I', 'n', 'f', 'i', 'n', 'i', 't', 'y'] cs with
        | some r => some (Json.num "Infinity", r)
        | none =>
        match stripLit ['-', 'I', 'n', 'f', 'i', 'n', 'i', 't', 'y'] cs with
        | some r => some (Json.num "-Infinity", r)
        | none => none

/-- CPython `JSONObject` after the opening brace. -/
def parseObjBody : Nat → List Char → Option (Json × List Char)
  | 0, _ => none
  | fuel + 1, cs =>
    match skipJWs cs with
    | '\x7d' :: rest => some (Json.obj [], rest)
    | '"' :: rest => parseMembers fuel rest []
    | _ => none

/-- Remaining members of an object; the input starts right after a key's
opening quote.  Duplicate keys overwrite in place, as a Python dict does. -/
def parseMembers : Nat → List Char → List (String × Json) → Option (Json × List Char)
  | 0, _, _ => none
  | fuel + 1, cs, acc =>
    match parseJString fuel cs [] with
    | none => none
    | some (key, cs1) =>
      match skipJWs cs1 with
      | ':' :: cs2 =>
        match parseValue fuel (skipJWs cs2) with
        | none => none
        | some (v, cs3) =>
          let acc2 := dSet acc (String.mk key) v
          match skipJWs cs3 with
          | ',' :: cs4 =>
            match skipJWs cs4 with
            | '"' :: cs5 => parseMembers fuel cs5 acc2
            | _ => none
          | '\x7d' :: cs4 => some (Json.obj acc2, cs4)
          | _ => none
      | _ => none

/-- CPython `JSONArray` after the opening bracket. -/
def parseArrBody : Nat → List Char → Option (Json × List Char)
  | 0, _ => none
  | fuel + 1, cs =>
    match skipJWs cs with
    | ']' :: rest => some (Json.arr [], rest)
    | cs1 => parseElems fuel cs1 []

/-- Remaining elements of an array. -/
def parseElems : Nat → List Char → List Json → Option (Json × List Char)
  | 0, _, _ => none
  | fuel + 1, cs, acc =>
    match parseValue fuel cs with
    | none => none
    | some (v, cs1) =>
      match skipJWs cs1 with
      | ',' :: cs2 => parseElems fuel (skipJWs cs2) (acc ++ [v])
      | ']' :: cs2 => some (Json.arr (acc ++ [v]), cs2)
      | _ => none

end

/-- Model of Python `json.loads`: leading/trailing whitespace allowed,
anything after the parsed value is an error (`Extra data`). -/
def jsonParse (s : String) : Option Json :=
  match parseValue (s.data.length + 1) (skipJWs s.data) with
  | some (v, rest) => if skipJWs rest = [] then some v else none
  | none => none

/-! ## Python `str()` of a decoded JSON value

`parse_summary_json` applies `str(...)` to the `position` value and to each
comment value.  For containers Python uses `repr`; the fuel-indexed
`pyReprF` models it (string escaping inside `repr` and float formatting are
approximated by the identity on the stored lexeme). -/

/-- Python `str()` of a number decoded from the raw JSON lexeme.  Integer
lexemes are canonicalised (`-0` prints as `0`); float formatting keeps the
lexeme. -/
def pyNumStr (raw : String) : String :=
  if raw = "NaN" then "nan"
  else if raw = "Infinity" then "inf"
  else if raw = "-Infinity" then "-inf"
  else if raw = "-0" then "0"
  else raw

/-- Python `repr()` of a string (approximation: single quotes, no escaping). -/
def pyReprStr (s : String) : String :=
  "\x27" ++ s ++ "\x27"

/-- Python `repr()` of a decoded JSON value, fuel-indexed for termination. -/
def pyReprF : Nat → Json → String
  | 0, _ => ""
  | _ + 1, Json.null => "None"
  | _ + 1, Json.bool true => "True"
  | _ + 1, Json.bool false => "False"
  | _ + 1, Json.num raw => pyNumStr raw
  | _ + 1, Json.str s => pyReprStr s
  | fuel + 1, Json.arr xs => "[" ++ pyJoin ", " (xs.map (pyReprF fuel)) ++ "]"
  | fuel + 1, Json.obj ps =>
    "\x7b" ++ pyJoin ", " (ps.map (fun p => pyReprStr p.1 ++ ": " ++ pyReprF fuel p.2)) ++ "\x7d"

mutual

/-- Structural size of a JSON value, used as recursion fuel for `pyStr`. -/
def jsonSize : Json → Nat
  | Json.null => 1
  | Json.bool _ => 1
  | Json.num _ => 1
  | Json.str _ => 1
  | Json.arr xs => 1 + jsonSizeList xs
  | Json.obj ps => 1 + jsonSizeFields ps

def jsonSizeList : List Json → Nat
  | [] => 0
  | x :: xs => 1 + jsonSize x + jsonSizeList xs

def jsonSizeFields : List (String × Json) → Nat
  | [] => 0
  | p :: ps => 1 + jsonSize p.2 + jsonSizeFields ps

end

/-- Python `str()` of a decoded JSON value: a string is returned unchanged,
anything else is rendered as by `repr`. -/
def pyStr (j : Json) : String :=
  match j with
  | Json.str s => s
  | _ => pyReprF (jsonSize j) j

/-! ## `build_system_prompt` (graph_converter.py lines 26-88) -/

/-- The fixed base sentence used when the node has no custom prompt. -/
def defaultBase : String := "You are a participant in a multi-agent debate."

/-- Base text of every system prompt: custom fragment (or the default
sentence) plus the fixed conciseness instruction. -/
def pyBase (custom : String) : String :=
  (if custom = "" then defaultBase else custom) ++ "\n\nKeep your response concise."

/-- The fixed round-1 instruction block appended by `build_system_prompt`. -/
def round1Instructions : String :=
  "\n\nAfter your full response, output your position/conclusion in JSON format:\n\nSUMMARY_JSON:\n\x7b\"position\": \"Your brief conclusion in 3-8 words\"\x7d\n\nExample:\nSUMMARY_JSON:\n\x7b\"position\": \"AI is beneficial for humanity\"\x7d\n"

/-- `build_system_prompt(custom_prompt, outgoing_neighbors, labels, round_num)`. -/
def build_system_prompt (custom : String) (outgoing_neighbors : List String)
    (labels : List (String × String)) (round_num : Nat) : String :=
  let base := pyBase custom
  if round_num = 1 then base ++ round1Instructions
  else
    match outgoing_neighbors with
    | [] => base
    | n0 :: rest =>
      let neighbor_names := (n0 :: rest).map (fun nid => (dGet labels nid).getD nid)
      let name0 := (dGet labels n0).getD n0
      let name1 :=
        match rest with
        | [] => name0
        | r0 :: _ => (dGet labels r0).getD r0
      let neighbor_list := pyJoin "\", \"" neighbor_names
      let comments_example :=
        pyJoin ", " ((neighbor_names.take 2).map (fun name => "\"" ++ name ++ "\": \"Brief comment\""))
      base ++
        "\n\nAfter your full response, output your position and comments in JSON format:\n\nSUMMARY_JSON:\n\x7b\"position\": \"Your brief conclusion in 3-8 words\", \"comments\": \x7b" ++
        comments_example ++
        "\x7d\x7d\n\nExample:\nSUMMARY_JSON:\n\x7b\"position\": \"AI needs regulation\", \"comments\": \x7b\"" ++
        name0 ++ "\": \"I agree with your risk analysis\", \"" ++ name1 ++
        "\": \"However, your timeline is too pessimistic\"\x7d\x7d\n\nYour neighbors are: " ++
        neighbor_list ++ ". Provide exactly one comment per neighbor."

/-! ## `parse_summary_json` (graph_converter.py lines 99-180) -/

/-- Lowercased characters of the literal marker `SUMMARY_JSON:`. -/
def markerChars : List Char := "summary_json:".data

/-- Case-insensitive prefix test against an already lowercased pattern. -/
def ciPrefixAt : List Char → List Char → Bool
  | [], _ => true
  | _ :: _, [] => false
  | p :: ps, c :: cs => p = pyCharLower c && ciPrefixAt ps cs

/-- Characters matched by the regex class `\s` (ASCII fragment). -/
def reWs (c : Char) : Bool :=
  c = ' ' || c = '\t' || c = '\n' || c = '\r' || c = '\x0b' || c = '\x0c'

/-- Semantics of `re.search(r'(?i)\n*SUMMARY_JSON:\s*\n*', text)`: on the
leftmost match, return the text before `match.start()` (the greedy `\n*`
backs the start over newlines immediately preceding the marker) and the text
after `match.end()` (the marker plus all following `\s` characters).
`acc` holds the already scanned characters in reverse. -/
def findMarkerSplit : List Char → List Char → Option (List Char × List Char)
  | _, [] => none
  | acc, c :: cs =>
    if ciPrefixAt markerChars (c :: cs) then
      some ((acc.dropWhile (fun x => x = '\n')).reverse,
        ((c :: cs).drop markerChars.length).dropWhile reWs)
    else findMarkerSplit (c :: acc) cs

/-- The marker search of `parse_summary_json` (line 118). -/
def markerSplit (text : String) : Option (List Char × List Char) :=
  findMarkerSplit [] text.data

/-- The brace-matching scan (lines 139-149): characters from the first
opening brace to the point where the running brace count returns to zero,
inclusive.  `acc` holds scanned characters in reverse. -/
def braceScan : List Char → Int → List Char → Option (List Char)
  | [], _, _ => none
  | c :: cs, depth, acc =>
    if c = '\x7b' then braceScan cs (depth + 1) (c :: acc)
    else if c = '\x7d' then
      if depth - 1 = 0 then some ((c :: acc).reverse)
      else braceScan cs (depth - 1) (c :: acc)
    else braceScan cs depth (c :: acc)

/-- `json_section.find('{')` followed by the brace scan (lines 135-154):
the candidate `json_str`, or `none` when there is no opening brace or no
brace-count-matched closing brace. -/
def jsonSlice (js : List Char) : Option (List Char) :=
  match js.dropWhile (fun c => c != '\x7b') with
  | [] => none
  | tl => braceScan tl 0 []

/-- The JSON candidate substring selected by `parse_summary_json` for a
given input text (composition of marker split, strip and brace scan). -/
def jsonCandidate (text : String) : Option (List Char) :=
  match markerSplit text with
  | some (_, post) => jsonSlice (pyStripChars post)
  | none => none

/-- The `{nid: "" for nid in expected_neighbors}` comprehension. -/
def emptyCommentsFor (expected : List String) : List (String × String) :=
  expected.foldl (fun d nid => dSet d nid "") []

/-- The reverse lookup `{label.lower(): nid for nid, label in labels.items()}`. -/
def labelToId (labels : List (String × String)) : List (String × String) :=
  labels.foldl (fun d p => dSet d (pyLowerS p.2) p.1) []

/-- One iteration of the comments loop (lines 163-168): record the trimmed
string form of the comment under the node id when the lowercased trimmed
label resolves to a known id that is among the expected neighbors; any other
pair leaves the accumulator unchanged. -/
def recordComment (l2i : List (String × String)) (expected : List String)
    (cm : List (String × String)) (p : String × Json) : List (String × String) :=
  match dGet l2i (pyLowerS (pyStripS p.1)) with
  | some nid => if nid ∈ expected then dSet cm nid (pyStripS (pyStr p.2)) else cm
  | none => cm

/-- The comments loop of `parse_summary_json` over all decoded pairs. -/
def processPairs (l2i : List (String × String)) (expected : List String)
    (cpairs : List (String × Json)) : List (String × String) :=
  cpairs.foldl (recordComment l2i expected) []

/-- The backfill loop (lines 176-178): give every expected neighbor that is
not yet present an empty-string comment. -/
def backfill (expected : List String) (cm : List (String × String)) : List (String × String) :=
  expected.foldl (fun d nid => if dMem d nid then d else dSet d nid "") cm

/-- `parse_summary_json(text, expected_neighbors, labels, round_num)`.
The Python function can raise `AttributeError` (uncaught by its
`except (json.JSONDecodeError, ValueError)` handler) when the decoded
`comments` value is not an object; that path is modelled with `.error`. -/
def parse_summary_json (text : String) (expected_neighbors : List String)
    (labels : List (String × String)) (round_num : Nat) :
    Except String (String × String × List (String × String)) :=
  match markerSplit text with
  | none => Except.ok (text, "", emptyCommentsFor expected_neighbors)
  | some (pre, post) =>
    match jsonSlice (pyStripChars post) with
    | none => Except.ok (text, "", emptyCommentsFor expected_neighbors)
    | some jchars =>
      match jsonParse (String.mk jchars) with
      | none => Except.ok (text, "", emptyCommentsFor expected_neighbors)
      | some (Json.obj fields) =>
        let main_text := String.mk (pyStripChars pre)
        let position := pyStripS (pyStr ((dGet fields "position").getD (Json.str "")))
        if 1 < round_num then
          match dGet fields "comments" with
          | some (Json.obj cpairs) =>
            Except.ok (main_text, position,
              backfill expected_neighbors (processPairs (labelToId labels) expected_neighbors cpairs))
          | some _ => Except.error "AttributeError"
          | none => Except.ok (main_text, position, backfill expected_neighbors [])
        else Except.ok (main_text, position, backfill expected_neighbors [])
      | some _ => Except.error "AttributeError"

/-! ## `build_neighbor_maps` (graph_converter.py lines 183-209) -/

/-- A node record as used by the backend: only `id`, `label` and the
optional `systemPrompt` influence the embedded core (`temperature` and
`apiKey` are consumed solely by the external model-client construction). -/
structure NodeRec where
  id : String
  label : String
  systemPrompt : Option String
deriving DecidableEq

/-- An edge record: `direction` defaults to `"bidirectional"` when the key
is absent; `fromId`/`toId` model `edge.get("from")` / `edge.get("to")`
(absent keys give `none`, and Python's falsiness test also skips `""`). -/
structure EdgeRec where
  direction : Option String
  fromId : Option String
  toId : Option String
deriving DecidableEq

/-- The nested `add_edge(sender, receiver)` of `build_neighbor_maps`:
no-op unless both endpoints are known; appends each endpoint to the other's
list only when not already present. -/
def add_edge (m : List (String × List String) × List (String × List String))
    (sender receiver : String) :
    List (String × List String) × List (String × List String) :=
  if dMem m.1 sender = false ∨ dMem m.1 receiver = false then m
  else
    let outList := (dGet m.1 sender).getD []
    let out2 := if receiver ∈ outList then m.1 else dSet m.1 sender (outList ++ [receiver])
    let inList := (dGet m.2 receiver).getD []
    let inc2 := if sender ∈ inList then m.2 else dSet m.2 receiver (inList ++ [sender])
    (out2, inc2)

/-- One iteration of the edge loop of `build_neighbor_maps`. -/
def processEdge (m : List (String × List String) × List (String × List String))
    (e : EdgeRec) :
    List (String × List String) × List (String × List String) :=
  let direction := e.direction.getD "bidirectional"
  let from_id := e.fromId.getD ""
  let to_id := e.toId.getD ""
  if from_id = "" ∨ to_id = "" then m
  else if direction = "a_to_b" then add_edge m from_id to_id
  else if direction = "b_to_a" then add_edge m to_id from_id
  else if direction = "bidirectional" then add_edge (add_edge m from_id to_id) to_id from_id
  else m

/-- The `{node["id"]: [] for node in nodes}` initialisation. -/
def initNeighborMap (nodes : List NodeRec) : List (String × List String) :=
  nodes.foldl (fun d n => dSet d n.id ([] : List String)) []

/-- `build_neighbor_maps(nodes, edges)`: returns `(outgoing, incoming)`. -/
def build_neighbor_maps (nodes : List NodeRec) (edges : List EdgeRec) :
    List (String × List String) × List (String × List String) :=
  edges.foldl processEdge (initNeighborMap nodes, initNeighborMap nodes)

/-! ## User-turn prompt builders (graph_converter.py lines 212-239) -/

/-- `build_initial_prompt(question)`. -/
def build_initial_prompt (question : String) : String :=
  "Let\x27s have a thoughtful debate about the following topic:\n\n\"" ++ question ++
    "\"\n\nShare your perspective concisely."

/-- `build_followup_prompt(question, neighbor_responses, round_num, max_round)`
(the last two arguments are accepted and unused, as in the source). -/
def build_followup_prompt (question : String) (neighbor_responses : List String)
    (_round_num : Nat) (_max_round : Nat) : String :=
  match neighbor_responses with
  | [] =>
    "There are no solutions from other agents yet.\nCan you provide your answer to the problem?\nThe original problem is " ++
      question ++ "\n"
  | _ =>
    let neighbor_block :=
      pyJoin "\n" (neighbor_responses.map (fun resp => "One agent solution: " ++ resp))
    "These are the solutions to the problem from other agents:\n" ++ neighbor_block ++
      "\n\nUsing the solutions from other agents as additional information,\ncan you provide your answer to the problem?\nThe original problem is " ++
      question ++ "\n"

/-! ## The debate scheduler (`run_debate`'s round loop, lines 306-387)

The model backend is abstracted as `gen : String → List Msg → String`
(node id and full conversation history to raw reply), matching the spec's
`generate(history) -> text` capability.  Events are the dictionaries the
generator yields.  The aggregator pass after the rounds emits one extra
event and is not modelled here; no claim concerns it. -/

/-- A conversation history entry (`SystemMessage` / `UserMessage` /
`AssistantMessage`). -/
inductive Msg where
  | system (content : String)
  | user (content : String) (source : String)
  | assistant (content : String) (source : String)
deriving DecidableEq

/-- An event yielded by `run_debate`. -/
inductive Event where
  | position (src : String) (pos : String) (round : Nat)
  | message (src : String) (dst : String) (text : String) (summary : String) (round : Nat)
deriving DecidableEq

/-- The static data of one debate invocation, derived once from the
configuration before round 1. -/
structure Ctx where
  nodes : List NodeRec
  question : String
  labels : List (String × String)
  outgoing : List (String × List String)
  incoming : List (String × List String)
  rounds : Nat

/-- Mutable scheduler state: per-node histories and the round-indexed
response table. -/
structure SchedState where
  histories : List (String × List Msg)
  responses : List (Nat × List (String × String))
deriving DecidableEq

/-- `(node.get("systemPrompt") or "").strip()`. -/
def customOf (n : NodeRec) : String :=
  pyStripS (n.systemPrompt.getD "")

/-- The system prompt `run_debate` installs for node `n` in round `r`. -/
def sysPromptOf (ctx : Ctx) (n : NodeRec) (r : Nat) : String :=
  build_system_prompt (customOf n) ((dGet ctx.outgoing n.id).getD []) ctx.labels r

/-- Derive the static context from a configuration (lines 272-278, 304-305):
rounds are clamped to at least 1, a blank question falls back to the fixed
default topic, labels and the topology maps are built once. -/
def mkCtx (nodes : List NodeRec) (edges : List EdgeRec) (rounds : Int) (question : String) : Ctx :=
  let q := pyStripS question
  let maps := build_neighbor_maps nodes edges
  { nodes := nodes
    question :=
      if q = "" then
        "The impact of artificial intelligence on society: Is AI ultimately beneficial or harmful?"
      else q
    labels := nodes.foldl (fun d n => dSet d n.id n.label) []
    outgoing := maps.1
    incoming := maps.2
    rounds := (max 1 rounds).toNat }

/-- Initial state (lines 306-311): each node's history is seeded with
exactly its round-1 system message. -/
def initState (ctx : Ctx) : SchedState :=
  { histories := ctx.nodes.foldl (fun d n => dSet d n.id [Msg.system (sysPromptOf ctx n 1)]) []
    responses := [] }

/-- The `neighbor_responses` gathering of lines 339-344: previous-round main
text per incoming neighbor, skipping absent or empty entries, each formatted
as `"<label>: <text>"`. -/
def gatherNeighborResponses (prev : List (String × String)) (ids : List String)
    (labels : List (String × String)) : List String :=
  ids.filterMap (fun nid =>
    match dGet prev nid with
    | some t => if t = "" then none else some (((dGet labels nid).getD nid) ++ ": " ++ t)
    | none => none)

/-- The user-turn prompt built in lines 334-345 for node `nid` in round `r`,
given the previous round's response table. -/
def roundUserPrompt (ctx : Ctx) (r : Nat) (prev : List (String × String)) (nid : String) : String :=
  if r = 1 then build_initial_prompt ctx.question
  else
    build_followup_prompt ctx.question
      (gatherNeighborResponses prev ((dGet ctx.incoming nid).getD []) ctx.labels) r ctx.rounds

/-- The history passed to the model backend for node `n` in round `r`:
history with its system message overwritten for this round, plus the new
user turn (lines 322-348). -/
def stepCallHist (ctx : Ctx) (r : Nat) (st : SchedState) (n : NodeRec) : List Msg :=
  (((dGet st.histories n.id).getD []).set 0 (Msg.system (sysPromptOf ctx n r))) ++
    [Msg.user (roundUserPrompt ctx r ((dGet st.responses (r - 1)).getD []) n.id) "user"]

/-- The raw backend reply for node `n` in round `r`. -/
def stepContent (gen : String → List Msg → String) (ctx : Ctx) (r : Nat)
    (st : SchedState) (n : NodeRec) : String :=
  gen n.id (stepCallHist ctx r st n)

/-- One `(round, node)` step of the scheduler (loop body, lines 318-387):
replace the system message, append the user turn, call the backend, append
the assistant turn, parse the reply, record the main text, and emit one
position event followed by the message events.  A reply on which
`parse_summary_json` raises aborts the debate (`.error`). -/
def nodeStep (gen : String → List Msg → String) (ctx : Ctx) (r : Nat)
    (st : SchedState) (n : NodeRec) : Except String (SchedState × List Event) :=
  let content := stepContent gen ctx r st n
  let hist3 := stepCallHist ctx r st n ++ [Msg.assistant content ((dGet ctx.labels n.id).getD n.id)]
  let recipients := (dGet ctx.outgoing n.id).getD []
  match parse_summary_json content recipients ctx.labels r with
  | Except.error e => Except.error e
  | Except.ok (main_text, position, comments) =>
    let st2 : SchedState :=
      { histories := dSet st.histories n.id hist3
        responses := dSet st.responses r (dSet ((dGet st.responses r).getD []) n.id main_text) }
    let msgs :=
      if recipients = [] then [Event.message n.id "none" main_text "" r]
      else recipients.map (fun dst => Event.message n.id dst main_text ((dGet comments dst).getD "") r)
    Except.ok (st2, Event.position n.id position r :: msgs)

/-- Process the nodes of one round in declaration order. -/
def stepNodes (gen : String → List Msg → String) (ctx : Ctx) (r : Nat) :
    List NodeRec → SchedState → Except String (SchedState × List Event)
  | [], st => Except.ok (st, [])
  | n :: ns, st =>
    match nodeStep gen ctx r st n with
    | Except.error e => Except.error e
    | Except.ok (st1, evs1) =>
      match stepNodes gen ctx r ns st1 with
      | Except.error e => Except.error e
      | Except.ok (st2, evs2) => Except.ok (st2, evs1 ++ evs2)

/-- One full round: reset this round's response table entry
(`responses_by_round[round_num] = {}`), then step every node. -/
def roundStep (gen : String → List Msg → String) (ctx : Ctx) (r : Nat)
    (st : SchedState) : Except String (SchedState × List Event) :=
  stepNodes gen ctx r ctx.nodes { st with responses := dSet st.responses r [] }

/-- Rounds `1..R` of the scheduler, in order. -/
def runRounds (gen : String → List Msg → String) (ctx : Ctx) :
    Nat → Except String (SchedState × List Event)
  | 0 => Except.ok (initState ctx, [])
  | k + 1 =>
    match runRounds gen ctx k with
    | Except.error e => Except.error e
    | Except.ok (st, evs) =>
      match roundStep gen ctx (k + 1) st with
      | Except.error e => Except.error e
      | Except.ok (st2, evs2) => Except.ok (st2, evs ++ evs2)

/-- Scheduler state after rounds `1..R`, when no step failed. -/
def schedAfter (gen : String → List Msg → String) (ctx : Ctx) (R : Nat) : Option SchedState :=
  match runRounds gen ctx R with
  | Except.ok (st, _) => some st
  | Except.error _ => none

/-- Node `nid`'s conversation history after rounds `1..R`. -/
def histAfter (gen : String → List Msg → String) (ctx : Ctx) (R : Nat) (nid : String) :
    Option (List Msg) :=
  (schedAfter gen ctx R).bind (fun st => dGet st.histories nid)

/-- The round-`R` response table (node id to stored main text) after rounds
`1..R`. -/
def prevTableAfter (gen : String → List Msg → String) (ctx : Ctx) (R : Nat) :
    List (String × String) :=
  match schedAfter gen ctx R with
  | some st => (dGet st.responses R).getD []
  | none => []

/-- The user prompt node `nid` receives in round `r` of a run. -/
def promptInRound (gen : String → List Msg → String) (ctx : Ctx) (r : Nat) (nid : String) : String :=
  roundUserPrompt ctx r (prevTableAfter gen ctx (r - 1)) nid

/-- The history with which node `n`'s backend is invoked in round `r`. -/
def callHistOf (gen : String → List Msg → String) (ctx : Ctx) (r : Nat) (n : NodeRec) : List Msg :=
  (((histAfter gen ctx (r - 1) n.id).getD []).set 0 (Msg.system (sysPromptOf ctx n r))) ++
    [Msg.user (promptInRound gen ctx r n.id) "user"]

/-- The backend reply node `n` produces in round `r` of a run. -/
def contentOf (gen : String → List Msg → String) (ctx : Ctx) (r : Nat) (n : NodeRec) : String :=
  gen n.id (callHistOf gen ctx r n)

/-! ## Characterization helpers used in theorem statements -/

/-- The comment value recorded for `nid` by the comments loop: the value of
the last `(label, comment)` pair whose lowercased trimmed label resolves
through `l2i` to `nid`, provided `nid` is among the expected neighbors. -/
def lastMatch (l2i : List (String × String)) (expected : List String) :
    List (String × Json) → String → Option Json
  | [], _ => none
  | p :: ps, nid =>
    match lastMatch l2i expected ps nid with
    | some c => some c
    | none =>
      if dGet l2i (pyLowerS (pyStripS p.1)) = some nid ∧ nid ∈ expected then some p.2
      else none

/-- The transformation one scheduler step applies to a node's own history,
as a function of the previous-round table and the old history. -/
def histUpdate (gen : String → List Msg → String) (ctx : Ctx) (r : Nat)
    (prev : List (String × String)) (n : NodeRec) (h0 : List Msg) : List Msg :=
  let h2 := h0.set 0 (Msg.system (sysPromptOf ctx n r)) ++
    [Msg.user (roundUserPrompt ctx r prev n.id) "user"]
  h2 ++ [Msg.assistant (gen n.id h2) ((dGet ctx.labels n.id).getD n.id)]

/-! ## Concrete fixtures used by witnesses -/

/-- A two-node debate configuration (`a -> b`, two rounds). -/
def nodeA : NodeRec := ⟨"a", "A", none⟩

/-- Second fixture node. -/
def nodeB : NodeRec := ⟨"b", "B", none⟩

/-- A constant model backend. -/
def genW : String → List Msg → String := fun _ _ => "Hello."

/-- The fixture context. -/
def ctxW : Ctx := mkCtx [nodeA, nodeB] [⟨some "a_to_b", some "a", some "b"⟩] 2 "Q?"

/-- The invariant maintained by `build_neighbor_maps`: both maps have
exactly the known node ids as keys, and every stored neighbor list is
duplicate-free and mentions only known node ids. -/
def nbInvariant (ids : List String)
    (m : List (String × List String) × List (String × List String)) : Prop :=
  (∀ k, dMem m.1 k = true ↔ k ∈ ids) ∧
  (∀ k, dMem m.2 k = true ↔ k ∈ ids) ∧
  (∀ k l, dGet m.1 k = some l → l.Nodup ∧ ∀ x ∈ l, x ∈ ids) ∧
  (∀ k l, dGet m.2 k = some l → l.Nodup ∧ ∀ x ∈ l, x ∈ ids)

/-! ## Dictionary lemmas -/

theorem dGet_dSet {κ α : Type} [DecidableEq κ] (d : List (κ × α)) (k : κ) (v : α) (k' : κ) :
    dGet (dSet d k v) k' = if k' = k then some v else dGet d k' := by
  induction d with
  | nil =>
    by_cases h : k' = k
    · simp [dSet, dGet, h]
    · have h2 : ¬ k = k' := fun e => h e.symm
      simp [dSet, dGet, h, h2]
  | cons p rest ih =>
    by_cases hp : p.1 = k
    · by_cases h : k' = k
      · have hq : p.1 = k' := hp.trans h.symm
        simp [dSet, dGet, hp, h, hq]
      · have hq : ¬ p.1 = k' := fun e => h (e.symm.trans hp)
        have h3 : ¬ k = k' := fun e => h e.symm
        simp [dSet, dGet, hp, h, hq, h3]
    · by_cases hq : p.1 = k'
      · have h2 : ¬ k' = k := fun e => hp (hq.trans e)
        simp [dSet, dGet, hp, hq, h2]
      · simp [dSet, dGet, hp, hq, ih]

theorem dMem_dSet {κ α : Type} [DecidableEq κ] (d : List (κ × α)) (k : κ) (v : α) (k' : κ) :
    dMem (dSet d k v) k' = (decide (k' = k) || dMem d k') := by
  by_cases h : k' = k <;> simp [dMem, dGet_dSet, h]

theorem dMem_iff_isSome {κ α : Type} [DecidableEq κ] (d : List (κ × α)) (k : κ) :
    dMem d k = true ↔ ∃ v, dGet d k = some v := by
  simp [dMem, Option.isSome_iff_exists]

/-- Folding `dSet` with a constant value over a list of keys. -/
theorem dGet_foldl_dSet_const {κ α β : Type} [DecidableEq κ] (key : β → κ) (c : α)
    (l : List β) (d : List (κ × α)) (k : κ) :
    dGet (l.foldl (fun d x => dSet d (key x) c) d) k =
      if k ∈ l.map key then some c else dGet d k := by
  induction l generalizing d with
  | nil => simp
  | cons y ys ih =>
    simp only [List.foldl_cons, List.map_cons, List.mem_cons]
    rw [ih]
    by_cases hk : k ∈ ys.map key
    · simp [hk]
    · rw [if_neg hk, dGet_dSet]
      by_cases hy : k = key y
      · simp [hy]
      · simp [hy, hk]

/-- A fold of `dSet` never touches keys outside the folded list. -/
theorem dGet_foldl_dSet_notmem {κ α β : Type} [DecidableEq κ] (key : β → κ) (val : β → α)
    (l : List β) (d : List (κ × α)) (k : κ) (hk : k ∉ l.map key) :
    dGet (l.foldl (fun d x => dSet d (key x) (val x)) d) k = dGet d k := by
  induction l generalizing d with
  | nil => rfl
  | cons y ys ih =>
    simp only [List.map_cons, List.mem_cons] at hk
    push_neg at hk
    simp only [List.foldl_cons]
    rw [ih _ hk.2, dGet_dSet]
    simp [hk.1]

/-- With pairwise distinct keys, a fold of `dSet` stores `val x` under
`key x` for every folded `x`. -/
theorem dGet_foldl_dSet_nodup {κ α β : Type} [DecidableEq κ] (key : β → κ) (val : β → α)
    (l : List β) (d : List (κ × α)) (x : β) (hn : (l.map key).Nodup) (hx : x ∈ l) :
    dGet (l.foldl (fun d y => dSet d (key y) (val y)) d) (key x) = some (val x) := by
  induction l generalizing d with
  | nil => cases hx
  | cons y ys ih =>
    simp only [List.map_cons, List.nodup_cons] at hn
    rcases List.mem_cons.mp hx with hxy | hxys
    · subst hxy
      simp only [List.foldl_cons]
      rw [dGet_foldl_dSet_notmem _ _ _ _ _ hn.1, dGet_dSet]
      simp
    · exact ih _ hn.2 hxys

/-! ## Substring lemmas -/

theorem startsWithChars_append (p t : List Char) :
    startsWithChars p (p ++ t) = true := by
  induction p with
  | nil => rfl
  | cons c cs ih => simp [startsWithChars, ih]

theorem containsSub_self_append (p b : List Char) :
    containsSub p (p ++ b) = true := by
  cases p with
  | nil => cases b <;> simp [containsSub, startsWithChars]
  | cons q qs =>
    show (startsWithChars (q :: qs) ((q :: qs) ++ b) || containsSub (q :: qs) (qs ++ b)) = true
    rw [startsWithChars_append]
    simp

theorem containsSub_of_parts (p a b : List Char) :
    containsSub p (a ++ p ++ b) = true := by
  induction a with
  | nil => exact containsSub_self_append p b
  | cons x xs ih =>
    show (startsWithChars p ((x :: xs) ++ p ++ b) || containsSub p (xs ++ p ++ b)) = true
    rw [ih]
    simp

theorem data_append (s t : String) : (s ++ t).data = s.data ++ t.data := by
  cases s
  cases t
  rfl

/-- The accumulator of the `pyJoin` fold is a prefix of the result. -/
theorem pyJoin_foldl_ex (sep : String) (xs : List String) (acc : String) :
    ∃ b, (xs.foldl (fun acc y => acc ++ sep ++ y) acc).data = acc.data ++ b := by
  induction xs generalizing acc with
  | nil => exact ⟨[], by simp⟩
  | cons y ys ih =>
    obtain ⟨b, hb⟩ := ih (acc ++ sep ++ y)
    exact ⟨sep.data ++ y.data ++ b, by simp [hb, data_append, List.append_assoc]⟩

/-- Every member of the folded list occurs contiguously in the fold. -/
theorem pyJoin_foldl_mem (sep : String) (xs : List String) :
    ∀ acc x, x ∈ xs →
      ∃ a b, (xs.foldl (fun acc y => acc ++ sep ++ y) acc).data = a ++ x.data ++ b := by
  induction xs with
  | nil =>
    intro acc x hx
    cases hx
  | cons y ys ih =>
    intro acc x hx
    rcases List.mem_cons.mp hx with hxy | hxys
    · subst hxy
      obtain ⟨b, hb⟩ := pyJoin_foldl_ex sep ys (acc ++ sep ++ x)
      exact ⟨acc.data ++ sep.data, b, by simp [hb, data_append, List.append_assoc]⟩
    · exact ih (acc ++ sep ++ y) x hxys

/-- Every element of the joined list occurs contiguously in the join. -/
theorem pyJoin_mem_parts (sep : String) (l : List String) (x : String) (hx : x ∈ l) :
    ∃ a b, (pyJoin sep l).data = a ++ x.data ++ b := by
  cases l with
  | nil => cases hx
  | cons z zs =>
    rcases List.mem_cons.mp hx with hxz | hxzs
    · subst hxz
      obtain ⟨b, hb⟩ := pyJoin_foldl_ex sep zs x
      exact ⟨[], b, by simpa [pyJoin] using hb⟩
    · obtain ⟨a, b, hab⟩ := pyJoin_foldl_mem sep zs z x hxzs
      exact ⟨a, b, by simpa [pyJoin] using hab⟩

/-! ## Parser lemmas -/

theorem dGet_emptyCommentsFor (e : List String) (k : String) :
    dGet (emptyCommentsFor e) k = if k ∈ e then some "" else none := by
  have h := dGet_foldl_dSet_const (fun x : String => x) ("" : String) e [] k
  simpa [emptyCommentsFor, List.map_id] using h

theorem dGet_backfill (e : List String) : ∀ (cm : List (String × String)) (k : String),
    dGet (backfill e cm) k = if k ∈ e then some ((dGet cm k).getD "") else dGet cm k := by
  induction e with
  | nil => intro cm k; simp [backfill]
  | cons y ys ih =>
    intro cm k
    have hstep : backfill (y :: ys) cm =
        backfill ys (if dMem cm y then cm else dSet cm y "") := by
      simp [backfill]
    rw [hstep, ih]
    by_cases hky : k = y
    · subst hky
      by_cases hm : dMem cm k
      · obtain ⟨v, hv⟩ := (dMem_iff_isSome cm k).mp hm
        by_cases hks : k ∈ ys <;> simp [hm, hks, hv]
      · have hv : dGet cm k = none := by
          cases hveq : dGet cm k with
          | none => rfl
          | some v => exact absurd ((dMem_iff_isSome cm k).mpr ⟨v, hveq⟩) (by simpa using hm)
        have hg : dGet (dSet cm k "") k = some "" := by
          rw [dGet_dSet]; simp
        by_cases hks : k ∈ ys <;> simp [hm, hks, hv, hg]
    · by_cases hm : dMem cm y
      · simp [hm, List.mem_cons, hky]
      · have hg : dGet (dSet cm y "") k = dGet cm k := by
          rw [dGet_dSet]; simp [hky]
        simp [hm, hg, List.mem_cons, hky]

theorem dGet_recordComment (l2i : List (String × String)) (e : List String)
    (cm : List (String × String)) (p : String × Json) (nid : String) :
    dGet (recordComment l2i e cm p) nid =
      if dGet l2i (pyLowerS (pyStripS p.1)) = some nid ∧ nid ∈ e then
        some (pyStripS (pyStr p.2))
      else dGet cm nid := by
  cases hl : dGet l2i (pyLowerS (pyStripS p.1)) with
  | none => simp [recordComment, hl]
  | some nid' =>
    by_cases he : nid' ∈ e
    · by_cases hn : nid = nid'
      · subst hn
        simp [recordComment, hl, he, dGet_dSet]
      · have hc : ¬ (nid' = nid ∧ nid ∈ e) := fun hc => hn hc.1.symm
        simp [recordComment, hl, he, dGet_dSet, hn, hc]
    · have hc : ¬ (nid' = nid ∧ nid ∈ e) := fun hc => he (by rw [hc.1]; exact hc.2)
      simp [recordComment, hl, he, hc]

theorem dGet_foldl_recordComment (l2i : List (String × String)) (e : List String) :
    ∀ (cpairs : List (String × Json)) (cm : List (String × String)) (nid : String),
    dGet (cpairs.foldl (recordComment l2i e) cm) nid =
      match lastMatch l2i e cpairs nid with
      | some c => some (pyStripS (pyStr c))
      | none => dGet cm nid := by
  intro cpairs
  induction cpairs with
  | nil => intro cm nid; simp [lastMatch]
  | cons p ps ih =>
    intro cm nid
    simp only [List.foldl_cons]
    rw [ih]
    cases hm : lastMatch l2i e ps nid with
    | some c => simp [lastMatch, hm]
    | none =>
      rw [dGet_recordComment]
      by_cases hc : dGet l2i (pyLowerS (pyStripS p.1)) = some nid ∧ nid ∈ e
      · simp [lastMatch, hm, hc]
      · simp [lastMatch, hm, hc]

theorem dGet_processPairs (l2i : List (String × String)) (e : List String)
    (cpairs : List (String × Json)) (nid : String) :
    dGet (processPairs l2i e cpairs) nid =
      (lastMatch l2i e cpairs nid).map (fun c => pyStripS (pyStr c)) := by
  have h := dGet_foldl_recordComment l2i e cpairs [] nid
  cases hm : lastMatch l2i e cpairs nid with
  | some c =>
    rw [hm] at h
    simpa [processPairs] using h
  | none =>
    rw [hm] at h
    simpa [processPairs, dGet] using h

theorem lastMatch_none_of_not_mem (l2i : List (String × String)) (e : List String)
    (cpairs : List (String × Json)) (nid : String) (h : nid ∉ e) :
    lastMatch l2i e cpairs nid = none := by
  induction cpairs with
  | nil => rfl
  | cons p ps ih => simp [lastMatch, ih, h]

/-! ## Claim theorems: response parser -/

/-- C3: for every input text in which the `SUMMARY_JSON` marker is absent,
or the marker is present but the after-marker segment has no opening brace
or no brace-nesting-matched closing brace, or the bracketed substring fails
JSON parsing, `parse_summary_json` returns the full original text as
`main_text` with empty position and all-empty comments for every expected
neighbor, and raises no exception (`.ok`). -/
theorem c3_parser_fallback (text : String) (expected : List String)
    (labels : List (String × String)) (round_num : Nat)
    (h : markerSplit text = none ∨
      ((markerSplit text).isSome ∧ jsonCandidate text = none) ∨
      (∃ s, jsonCandidate text = some s ∧ jsonParse (String.mk s) = none)) :
    parse_summary_json text expected labels round_num =
      Except.ok (text, "", emptyCommentsFor expected) ∧
    ∀ nid, dGet (emptyCommentsFor expected) nid = if nid ∈ expected then some "" else none := by
  constructor
  · rcases h with h | ⟨hm, hc⟩ | ⟨s, hs, hp⟩
    · simp [parse_summary_json, h]
    · obtain ⟨⟨pre, post⟩, hm2⟩ := Option.isSome_iff_exists.mp hm
      have hc2 : jsonSlice (pyStripChars post) = none := by
        simpa [jsonCandidate, hm2] using hc
      simp [parse_summary_json, hm2, hc2]
    · cases hm : markerSplit text with
      | none => simp [jsonCandidate, hm] at hs
      | some pr =>
        obtain ⟨pre, post⟩ := pr
        have hs2 : jsonSlice (pyStripChars post) = some s := by
          simpa [jsonCandidate, hm] using hs
        simp [parse_summary_json, hm, hs2, hp]
  · intro nid
    exact dGet_emptyCommentsFor expected nid

/-- Witness for C3 at a concrete marker-free input. -/
theorem c3_parser_fallback_witness :
    parse_summary_json "no marker here" ["n1"] [] 1 =
      Except.ok ("no marker here", "", [("n1", "")]) :=
  (c3_parser_fallback "no marker here" ["n1"] [] 1 (Or.inl rfl)).1.trans rfl

/-- C4: for every successfully parsed envelope with round number greater
than 1 and a `comments` object, `parse_summary_json` succeeds, and the
returned comments map records, for each expected neighbor id, the trimmed
string form of the last comment whose lowercased trimmed label resolves
through the label lookup to that id (empty string when no pair matches);
every pair whose label is not recognised or not in the expected set
contributes nothing, and ids outside the expected set are absent. -/
theorem c4_comments_recording (text : String) (expected : List String)
    (labels : List (String × String)) (round_num : Nat)
    (pre post s : List Char) (fields cpairs : List (String × Json))
    (hm : markerSplit text = some (pre, post))
    (hs : jsonCandidate text = some s)
    (hp : jsonParse (String.mk s) = some (Json.obj fields))
    (hc : dGet fields "comments" = some (Json.obj cpairs))
    (hr : 1 < round_num) :
    parse_summary_json text expected labels round_num =
      Except.ok (String.mk (pyStripChars pre),
        pyStripS (pyStr ((dGet fields "position").getD (Json.str ""))),
        backfill expected (processPairs (labelToId labels) expected cpairs)) ∧
    ∀ nid, dGet (backfill expected (processPairs (labelToId labels) expected cpairs)) nid =
      if nid ∈ expected then
        some (((lastMatch (labelToId labels) expected cpairs nid).map
          (fun c => pyStripS (pyStr c))).getD "")
      else none := by
  constructor
  · have hs2 : jsonSlice (pyStripChars post) = some s := by
      simpa [jsonCandidate, hm] using hs
    simp [parse_summary_json, hm, hs2, hp, hc, hr]
  · intro nid
    rw [dGet_backfill]
    by_cases hn : nid ∈ expected
    · simp [hn, dGet_processPairs]
    · simp [hn, dGet_processPairs, lastMatch_none_of_not_mem _ _ _ _ hn]

/-- Witness for C4: a round-2 reply with one matching comment (case-folded
label, padded comment) and the matching pair recorded trimmed. -/
theorem c4_comments_recording_witness :
    parse_summary_json "Body.\nSUMMARY_JSON:\n\x7b\"position\": \"P\", \"comments\": \x7b\"ALICE \": \" hi \"\x7d\x7d"
        ["n1"] [("n1", "Alice")] 2 =
      Except.ok ("Body.", "P", [("n1", "hi")]) :=
  (c4_comments_recording
    "Body.\nSUMMARY_JSON:\n\x7b\"position\": \"P\", \"comments\": \x7b\"ALICE \": \" hi \"\x7d\x7d"
    ["n1"] [("n1", "Alice")] 2
    "Body.".data
    "\x7b\"position\": \"P\", \"comments\": \x7b\"ALICE \": \" hi \"\x7d\x7d".data
    "\x7b\"position\": \"P\", \"comments\": \x7b\"ALICE \": \" hi \"\x7d\x7d".data
    [("position", Json.str "P"), ("comments", Json.obj [("ALICE ", Json.str " hi ")])]
    [("ALICE ", Json.str " hi ")]
    rfl rfl rfl rfl (by decide)).1.trans rfl

/-- C2 (code bug): on a reply whose decoded `comments` value is not an
object, the Python parser raises `AttributeError` (its `except` clause
catches only `JSONDecodeError` and `ValueError`), so no comments mapping is
returned at all — contradicting the claim that the mapping's key set always
equals the expected-neighbor set.  The embedding returns the error. -/
theorem c2_crash_on_nonobject_comments :
    parse_summary_json "SUMMARY_JSON: \x7b\"comments\": 1\x7d" ["n1"] [("n1", "Alice")] 2 =
      Except.error "AttributeError" := rfl

/-- C10: on an input whose `SUMMARY_JSON` object contains an unbalanced
closing brace inside a JSON string literal, the brace-matching scan (which
counts brace characters inside string literals) truncates the candidate at
that brace, JSON parsing of the truncated candidate fails, and the parser
returns the full-text fallback instead of the parsed position. -/
theorem c10_brace_inside_string_falls_back :
    parse_summary_json "Hmm.\nSUMMARY_JSON:\n\x7b\"position\": \"use \x7d carefully\"\x7d"
        ["n1"] [("n1", "Alice")] 1 =
      Except.ok ("Hmm.\nSUMMARY_JSON:\n\x7b\"position\": \"use \x7d carefully\"\x7d", "",
        [("n1", "")]) ∧
    jsonCandidate "Hmm.\nSUMMARY_JSON:\n\x7b\"position\": \"use \x7d carefully\"\x7d" =
      some "\x7b\"position\": \"use \x7d".data ∧
    jsonParse "\x7b\"position\": \"use \x7d" = none :=
  ⟨rfl, rfl, rfl⟩

/-! ## Claim theorems: system prompt -/

/-- C8: for every custom prompt fragment, label mapping and
outgoing-neighbor list, the round-1 system prompt is the base text plus the
fixed round-1 instruction block, which contains no `comments` instruction;
and for any round greater than 1 and zero outgoing neighbors the prompt is
exactly the base text, with no `SUMMARY_JSON` instruction appended at all. -/
theorem c8_prompt_instruction_absence (custom : String) (ns : List String)
    (labels : List (String × String)) (r : Nat) (hr : 1 < r) :
    build_system_prompt custom ns labels 1 = pyBase custom ++ round1Instructions ∧
    containsSub "comments".data round1Instructions.data = false ∧
    build_system_prompt custom [] labels r = pyBase custom ∧
    containsSub "comments".data (build_system_prompt "" ns labels 1).data = false ∧
    containsSub "SUMMARY_JSON".data (build_system_prompt "" [] labels r).data = false := by
  have hne : ¬ r = 1 := by omega
  have h1 : ∀ c : String, build_system_prompt c ns labels 1 = pyBase c ++ round1Instructions := by
    intro c
    simp [build_system_prompt]
  have h3 : ∀ c : String, build_system_prompt c [] labels r = pyBase c := by
    intro c
    simp [build_system_prompt, hne]
  refine ⟨h1 custom, by decide, h3 custom, ?_, ?_⟩
  · rw [h1 ""]
    decide
  · rw [h3 ""]
    decide

/-- Witness for C8 at round 2. -/
theorem c8_prompt_instruction_absence_witness :
    build_system_prompt "be bold" [] [] 2 = pyBase "be bold" ∧
    containsSub "SUMMARY_JSON".data (build_system_prompt "" [] [] 2).data = false :=
  ⟨(c8_prompt_instruction_absence "be bold" [] [] 2 (by decide)).2.2.1,
   (c8_prompt_instruction_absence "" [] [] 2 (by decide)).2.2.2.2⟩

/-! ## Topology resolver lemmas -/

theorem dGet_initNeighborMap (nodes : List NodeRec) (k : String) :
    dGet (initNeighborMap nodes) k =
      if k ∈ nodes.map NodeRec.id then some [] else none := by
  simpa [initNeighborMap] using
    dGet_foldl_dSet_const NodeRec.id ([] : List String) nodes [] k

theorem nbInvariant_init (nodes : List NodeRec) :
    nbInvariant (nodes.map NodeRec.id) (initNeighborMap nodes, initNeighborMap nodes) := by
  refine ⟨?_, ?_, ?_, ?_⟩ <;> intro k
  · rw [dMem, dGet_initNeighborMap]
    by_cases hk : k ∈ nodes.map NodeRec.id <;> simp [hk]
  · rw [dMem, dGet_initNeighborMap]
    by_cases hk : k ∈ nodes.map NodeRec.id <;> simp [hk]
  · intro l hl
    rw [dGet_initNeighborMap] at hl
    by_cases hk : k ∈ nodes.map NodeRec.id
    · rw [if_pos hk] at hl
      cases hl
      exact ⟨List.nodup_nil, by simp⟩
    · rw [if_neg hk] at hl
      cases hl
  · intro l hl
    rw [dGet_initNeighborMap] at hl
    by_cases hk : k ∈ nodes.map NodeRec.id
    · rw [if_pos hk] at hl
      cases hl
      exact ⟨List.nodup_nil, by simp⟩
    · rw [if_neg hk] at hl
      cases hl

theorem nbInvariant_add_edge (ids : List String)
    (m : List (String × List String) × List (String × List String))
    (s r : String) (h : nbInvariant ids m) : nbInvariant ids (add_edge m s r) := by
  obtain ⟨hk1, hk2, hv1, hv2⟩ := h
  by_cases hg : dMem m.1 s = false ∨ dMem m.1 r = false
  · rw [add_edge, if_pos hg]
    exact ⟨hk1, hk2, hv1, hv2⟩
  · push_neg at hg
    have hs : dMem m.1 s = true := by
      cases hb : dMem m.1 s with
      | false => exact absurd hb hg.1
      | true => rfl
    have hr : dMem m.1 r = true := by
      cases hb : dMem m.1 r with
      | false => exact absurd hb hg.2
      | true => rfl
    have hsids : s ∈ ids := (hk1 s).mp hs
    have hrids : r ∈ ids := (hk1 r).mp hr
    obtain ⟨ls, hls⟩ := (dMem_iff_isSome m.1 s).mp hs
    have hrin : dMem m.2 r = true := (hk2 r).mpr hrids
    obtain ⟨lr, hlr⟩ := (dMem_iff_isSome m.2 r).mp hrin
    have hout : ∀ k, dMem (add_edge m s r).1 k = dMem m.1 k := by
      intro k
      rw [add_edge, if_neg (by simp [hs, hr])]
      by_cases hc : r ∈ (dGet m.1 s).getD []
      · simp [hc]
      · simp only [hc, if_neg, ite_false, dMem_dSet]
        by_cases hks : k = s
        · subst hks
          simp [hs]
        · simp [hks]
    have hinc : ∀ k, dMem (add_edge m s r).2 k = dMem m.2 k := by
      intro k
      rw [add_edge, if_neg (by simp [hs, hr])]
      by_cases hc : s ∈ (dGet m.2 r).getD []
      · simp [hc]
      · simp only [hc, if_neg, ite_false, dMem_dSet]
        by_cases hkr : k = r
        · subst hkr
          simp [hrin]
        · simp [hkr]
    refine ⟨fun k => (hout k) ▸ hk1 k, fun k => (hinc k) ▸ hk2 k, ?_, ?_⟩
    · intro k l hl
      rw [add_edge, if_neg (by simp [hs, hr])] at hl
      by_cases hc : r ∈ (dGet m.1 s).getD []
      · simp only [hc, ite_true] at hl
        exact hv1 k l hl
      · simp only [hc, ite_false] at hl
        rw [dGet_dSet] at hl
        by_cases hks : k = s
        · rw [if_pos hks] at hl
          cases hl
          rw [hls] at hc ⊢
          obtain ⟨hnd, hsub⟩ := hv1 s ls hls
          constructor
          · simp only [Option.getD_some] at hc
            rw [List.nodup_append]
            exact ⟨hnd, List.nodup_singleton r, by simpa using hc⟩
          · intro x hx
            rcases List.mem_append.mp hx with hx | hx
            · exact hsub x (by simpa using hx)
            · simp only [List.mem_singleton] at hx
              subst hx
              exact hrids
        · rw [if_neg hks] at hl
          exact hv1 k l hl
    · intro k l hl
      rw [add_edge, if_neg (by simp [hs, hr])] at hl
      by_cases hc : s ∈ (dGet m.2 r).getD []
      · simp only [hc, ite_true] at hl
        exact hv2 k l hl
      · simp only [hc, ite_false] at hl
        rw [dGet_dSet] at hl
        by_cases hkr : k = r
        · rw [if_pos hkr] at hl
          cases hl
          rw [hlr] at hc ⊢
          obtain ⟨hnd, hsub⟩ := hv2 r lr hlr
          constructor
          · simp only [Option.getD_some] at hc
            rw [List.nodup_append]
            exact ⟨hnd, List.nodup_singleton s, by simpa using hc⟩
          · intro x hx
            rcases List.mem_append.mp hx with hx | hx
            · exact hsub x (by simpa using hx)
            · simp only [List.mem_singleton] at hx
              subst hx
              exact hsids
        · rw [if_neg hkr] at hl
          exact hv2 k l hl

theorem nbInvariant_processEdge (ids : List String)
    (m : List (String × List String) × List (String × List String))
    (e : EdgeRec) (h : nbInvariant ids m) : nbInvariant ids (processEdge m e) := by
  rw [processEdge]
  by_cases h1 : e.fromId.getD "" = "" ∨ e.toId.getD "" = ""
  · simp only [if_pos h1]
    exact h
  · simp only [if_neg h1]
    by_cases h2 : e.direction.getD "bidirectional" = "a_to_b"
    · simp only [if_pos h2]
      exact nbInvariant_add_edge _ _ _ _ h
    · simp only [if_neg h2]
      by_cases h3 : e.direction.getD "bidirectional" = "b_to_a"
      · simp only [if_pos h3]
        exact nbInvariant_add_edge _ _ _ _ h
      · simp only [if_neg h3]
        by_cases h4 : e.direction.getD "bidirectional" = "bidirectional"
        · simp only [if_pos h4]
          exact nbInvariant_add_edge _ _ _ _ (nbInvariant_add_edge _ _ _ _ h)
        · simp only [if_neg h4]
          exact h

theorem nbInvariant_foldl (ids : List String) (edges : List EdgeRec) :
    ∀ m, nbInvariant ids m → nbInvariant ids (edges.foldl processEdge m) := by
  induction edges with
  | nil => intro m h; exact h
  | cons e es ih =>
    intro m h
    exact ih _ (nbInvariant_processEdge _ _ _ h)

/-! ## Claim theorems: topology resolver -/

/-- C7: for every node list and every edge list, the two maps returned by
`build_neighbor_maps` have exactly the known node ids as their key set,
every stored neighbor list is duplicate-free and mentions only known ids,
and malformed input degrades to a no-op: an edge with a missing (or empty)
endpoint leaves the maps unchanged, as does `add_edge` when either endpoint
is unknown.  No case raises an error (the functions are total). -/
theorem c7_topology_invariants (nodes : List NodeRec) (edges : List EdgeRec) :
    (∀ k, dMem (build_neighbor_maps nodes edges).1 k = true ↔ k ∈ nodes.map NodeRec.id) ∧
    (∀ k, dMem (build_neighbor_maps nodes edges).2 k = true ↔ k ∈ nodes.map NodeRec.id) ∧
    (∀ k l, dGet (build_neighbor_maps nodes edges).1 k = some l →
      l.Nodup ∧ ∀ x ∈ l, x ∈ nodes.map NodeRec.id) ∧
    (∀ k l, dGet (build_neighbor_maps nodes edges).2 k = some l →
      l.Nodup ∧ ∀ x ∈ l, x ∈ nodes.map NodeRec.id) ∧
    (∀ m e, e.fromId.getD "" = "" ∨ e.toId.getD "" = "" → processEdge m e = m) ∧
    (∀ m s r, dMem m.1 s = false ∨ dMem m.1 r = false → add_edge m s r = m) := by
  have hinv : nbInvariant (nodes.map NodeRec.id) (build_neighbor_maps nodes edges) := by
    rw [build_neighbor_maps]
    exact nbInvariant_foldl _ edges _ (nbInvariant_init nodes)
  obtain ⟨h1, h2, h3, h4⟩ := hinv
  refine ⟨h1, h2, h3, h4, ?_, ?_⟩
  · intro m e he
    rw [processEdge, if_pos he]
  · intro m s r hg
    rw [add_edge, if_pos hg]

/-- Witness for C7 (the conjuncts with hypotheses, at concrete inputs):
an edge with an empty endpoint is a no-op, as is an edge to an unknown id. -/
theorem c7_topology_invariants_witness :
    processEdge ([("a", [])], [("a", [])]) ⟨some "a_to_b", some "", some "a"⟩ =
      ([("a", [])], [("a", [])]) ∧
    add_edge ([("a", [])], [("a", [])]) "a" "ghost" = ([("a", [])], [("a", [])]) ∧
    (dMem (build_neighbor_maps [⟨"a", "A", none⟩] [⟨some "a_to_b", some "a", some "ghost"⟩]).1 "a"
      = true ↔ "a" ∈ ([⟨"a", "A", none⟩] : List NodeRec).map NodeRec.id) := by
  refine ⟨?_, ?_, ?_⟩
  · exact (c7_topology_invariants [] []).2.2.2.2.1 _ _ (Or.inl rfl)
  · exact (c7_topology_invariants [] []).2.2.2.2.2 _ _ _ (Or.inr (by decide))
  · exact (c7_topology_invariants [⟨"a", "A", none⟩]
      [⟨some "a_to_b", some "a", some "ghost"⟩]).1 "a"

/-- C6 counterexample: with the known nodes `""` and `"y"` and the single
`a_to_b` edge `(from = "", to = "y")`, Python's falsiness test on the empty
source id skips the edge, so `"y"` is not in `outgoing[""]` — the claim as
stated fails for a known node whose id is the empty string. -/
theorem c6_empty_id_counterexample :
    dGet (build_neighbor_maps [⟨"", "Empty", none⟩, ⟨"y", "Y", none⟩]
        [⟨some "a_to_b", some "", some "y"⟩]).1 "" = some [] ∧
    "y" ∉ ((dGet (build_neighbor_maps [⟨"", "Empty", none⟩, ⟨"y", "Y", none⟩]
        [⟨some "a_to_b", some "", some "y"⟩]).1 "").getD []) := by
  refine ⟨rfl, ?_⟩
  intro h
  simp [build_neighbor_maps, initNeighborMap, processEdge, dSet, dGet] at h

/-- C6 (amended with non-empty ids): for two known nodes `X` and `Y` with
non-empty ids, a single `a_to_b` edge `(X, Y)` yields `Y ∈ outgoing[X]`,
`X ∈ incoming[Y]`, `X ∉ outgoing[Y]` and `Y ∉ incoming[X]`; a single
`bidirectional` edge yields all four memberships. -/
theorem c6_edge_direction_roundtrip (nodes : List NodeRec) (X Y : String)
    (hX : X ≠ "") (hY : Y ≠ "") (hXY : X ≠ Y)
    (hXm : X ∈ nodes.map NodeRec.id) (hYm : Y ∈ nodes.map NodeRec.id) :
    (Y ∈ ((dGet (build_neighbor_maps nodes [⟨some "a_to_b", some X, some Y⟩]).1 X).getD []) ∧
     X ∈ ((dGet (build_neighbor_maps nodes [⟨some "a_to_b", some X, some Y⟩]).2 Y).getD []) ∧
     X ∉ ((dGet (build_neighbor_maps nodes [⟨some "a_to_b", some X, some Y⟩]).1 Y).getD []) ∧
     Y ∉ ((dGet (build_neighbor_maps nodes [⟨some "a_to_b", some X, some Y⟩]).2 X).getD [])) ∧
    (Y ∈ ((dGet (build_neighbor_maps nodes [⟨some "bidirectional", some X, some Y⟩]).1 X).getD []) ∧
     X ∈ ((dGet (build_neighbor_maps nodes [⟨some "bidirectional", some X, some Y⟩]).2 Y).getD []) ∧
     X ∈ ((dGet (build_neighbor_maps nodes [⟨some "bidirectional", some X, some Y⟩]).1 Y).getD []) ∧
     Y ∈ ((dGet (build_neighbor_maps nodes [⟨some "bidirectional", some X, some Y⟩]).2 X).getD [])) := by
  have hgx : dGet (initNeighborMap nodes) X = some [] := by
    rw [dGet_initNeighborMap, if_pos hXm]
  have hgy : dGet (initNeighborMap nodes) Y = some [] := by
    rw [dGet_initNeighborMap, if_pos hYm]
  have hmx : dMem (initNeighborMap nodes) X = true := by
    rw [dMem, hgx]; rfl
  have hmy : dMem (initNeighborMap nodes) Y = true := by
    rw [dMem, hgy]; rfl
  have hadd : add_edge (initNeighborMap nodes, initNeighborMap nodes) X Y =
      (dSet (initNeighborMap nodes) X [Y], dSet (initNeighborMap nodes) Y [X]) := by
    rw [add_edge, if_neg (by simp [hmx, hmy])]
    simp [hgx, hgy]
  constructor
  · have hbm : build_neighbor_maps nodes [⟨some "a_to_b", some X, some Y⟩] =
        (dSet (initNeighborMap nodes) X [Y], dSet (initNeighborMap nodes) Y [X]) := by
      rw [build_neighbor_maps]
      simp only [List.foldl_cons, List.foldl_nil]
      rw [processEdge]
      simp only [Option.getD_some]
      rw [if_neg (by simp [hX, hY])]
      simp only [if_true, ite_true]
      exact hadd
    rw [hbm]
    refine ⟨?_, ?_, ?_, ?_⟩
    · rw [dGet_dSet, if_pos rfl]; simp
    · rw [dGet_dSet, if_pos rfl]; simp
    · rw [dGet_dSet, if_neg (fun he => hXY he.symm), hgy]; simp
    · rw [dGet_dSet, if_neg hXY, hgx]; simp
  · have hm1x : dMem (dSet (initNeighborMap nodes) X [Y]) Y = true := by
      rw [dMem_dSet, dMem, hgy]; simp
    have hg1y : dGet (dSet (initNeighborMap nodes) X [Y]) Y = some [] := by
      rw [dGet_dSet, if_neg (fun he => hXY he.symm), hgy]
    have hg2x : dGet (dSet (initNeighborMap nodes) Y [X]) X = some [] := by
      rw [dGet_dSet, if_neg hXY, hgx]
    have hadd2 : add_edge (dSet (initNeighborMap nodes) X [Y],
        dSet (initNeighborMap nodes) Y [X]) Y X =
        (dSet (dSet (initNeighborMap nodes) X [Y]) Y [X],
         dSet (dSet (initNeighborMap nodes) Y [X]) X [Y]) := by
      have hm1y : dMem (dSet (initNeighborMap nodes) X [Y]) X = true := by
        rw [dMem_dSet]; simp [hmx]
      rw [add_edge, if_neg (by simp [hm1x, hm1y])]
      simp [hg1y, hg2x]
    have hbm : build_neighbor_maps nodes [⟨some "bidirectional", some X, some Y⟩] =
        (dSet (dSet (initNeighborMap nodes) X [Y]) Y [X],
         dSet (dSet (initNeighborMap nodes) Y [X]) X [Y]) := by
      rw [build_neighbor_maps]
      simp only [List.foldl_cons, List.foldl_nil]
      rw [processEdge]
      simp only [Option.getD_some]
      rw [if_neg (by simp [hX, hY])]
      simp only [if_true, ite_true]
      rw [hadd]
      exact hadd2
    rw [hbm]
    refine ⟨?_, ?_, ?_, ?_⟩
    · rw [dGet_dSet, if_neg hXY, dGet_dSet, if_pos rfl]; simp
    · rw [dGet_dSet, if_neg (fun he => hXY he.symm), dGet_dSet, if_pos rfl]; simp
    · rw [dGet_dSet, if_pos rfl]; simp
    · rw [dGet_dSet, if_pos rfl]; simp

/-- Witness for C6 (amended) at two concrete nodes. -/
theorem c6_edge_direction_roundtrip_witness :
    "b" ∈ ((dGet (build_neighbor_maps [⟨"a", "A", none⟩, ⟨"b", "B", none⟩]
      [⟨some "a_to_b", some "a", some "b"⟩]).1 "a").getD []) ∧
    "a" ∈ ((dGet (build_neighbor_maps [⟨"a", "A", none⟩, ⟨"b", "B", none⟩]
      [⟨some "bidirectional", some "a", some "b"⟩]).1 "b").getD []) :=
  ⟨(c6_edge_direction_roundtrip [⟨"a", "A", none⟩, ⟨"b", "B", none⟩] "a" "b"
      (by decide) (by decide) (by decide) (by decide) (by decide)).1.1,
   (c6_edge_direction_roundtrip [⟨"a", "A", none⟩, ⟨"b", "B", none⟩] "a" "b"
      (by decide) (by decide) (by decide) (by decide) (by decide)).2.2.2.1⟩

/-! ## Claim theorems: scheduler events and prompts -/

/-- C1: for every completed `(round, node)` step of the scheduler, with any
backend reply, the emitted events are exactly one position event
`{node id, position, round}` followed by the message events: one event with
recipient `"none"`, the parsed main text and empty summary when the node has
no outgoing neighbors, otherwise exactly one event per outgoing neighbor
carrying the same main text and that neighbor's parsed comment (possibly
empty) as summary. -/
theorem c1_step_event_shape (gen : String → List Msg → String) (ctx : Ctx) (r : Nat)
    (st : SchedState) (n : NodeRec) (mt pos : String) (cm : List (String × String))
    (h : parse_summary_json (stepContent gen ctx r st n) ((dGet ctx.outgoing n.id).getD [])
      ctx.labels r = Except.ok (mt, pos, cm)) :
    (nodeStep gen ctx r st n).map Prod.snd =
      Except.ok (Event.position n.id pos r ::
        (if (dGet ctx.outgoing n.id).getD [] = [] then [Event.message n.id "none" mt "" r]
         else ((dGet ctx.outgoing n.id).getD []).map
           (fun dst => Event.message n.id dst mt ((dGet cm dst).getD "") r))) := by
  simp only [nodeStep]
  rw [h]
  rfl

/-- Witness for C1: node `a` of the fixture completes its round-1 step and
emits its position event followed by one message to its single neighbor. -/
theorem c1_step_event_shape_witness :
    (nodeStep genW ctxW 1 (initState ctxW) nodeA).map Prod.snd =
      Except.ok [Event.position "a" "" 1, Event.message "a" "b" "Hello." "" 1] :=
  (c1_step_event_shape genW ctxW 1 (initState ctxW) nodeA "Hello." "" [("b", "")] rfl).trans rfl

/-- `gatherNeighborResponses` is empty when no incoming neighbor produced a
non-empty previous-round main text. -/
theorem gatherNeighborResponses_nil (prev : List (String × String)) (ids : List String)
    (labels : List (String × String))
    (h : ∀ i ∈ ids, dGet prev i = none ∨ dGet prev i = some "") :
    gatherNeighborResponses prev ids labels = [] := by
  induction ids with
  | nil => rfl
  | cons i is ih =>
    have hi := h i (List.mem_cons_self i is)
    have hrest := ih (fun j hj => h j (List.mem_cons_of_mem i hj))
    rcases hi with hi | hi <;>
      simp [gatherNeighborResponses, hi, List.filterMap_cons] <;>
      simpa [gatherNeighborResponses] using hrest

/-- C5: for every round greater than 1, the scheduler's user prompt for a
node (a) when at least one incoming neighbor has a non-empty previous-round
main text, is the "solutions from other agents" template joining one
`"One agent solution: <label>: <text>"` line per such neighbor and restating
the question, and contains each qualifying `"<label>: <text>"` line as a
substring, and (b) when no incoming neighbor produced a non-empty
previous-round main text, is the fixed "no solutions yet" fallback template
restating the question. -/
theorem c5_followup_prompt (ctx : Ctx) (r : Nat) (prev : List (String × String))
    (nid : String) (hr : 1 < r) :
    (gatherNeighborResponses prev ((dGet ctx.incoming nid).getD []) ctx.labels ≠ [] →
      roundUserPrompt ctx r prev nid =
        "These are the solutions to the problem from other agents:\n" ++
        pyJoin "\n"
          ((gatherNeighborResponses prev ((dGet ctx.incoming nid).getD []) ctx.labels).map
            (fun resp => "One agent solution: " ++ resp)) ++
        "\n\nUsing the solutions from other agents as additional information,\ncan you provide your answer to the problem?\nThe original problem is " ++
        ctx.question ++ "\n") ∧
    (∀ i ∈ (dGet ctx.incoming nid).getD [], ∀ t, dGet prev i = some t → t ≠ "" →
      containsSub (((dGet ctx.labels i).getD i) ++ ": " ++ t).data
        (roundUserPrompt ctx r prev nid).data = true) ∧
    ((∀ i ∈ (dGet ctx.incoming nid).getD [], dGet prev i = none ∨ dGet prev i = some "") →
      roundUserPrompt ctx r prev nid =
        "There are no solutions from other agents yet.\nCan you provide your answer to the problem?\nThe original problem is " ++
        ctx.question ++ "\n") := by
  have hne : ¬ r = 1 := by omega
  have htemplate : gatherNeighborResponses prev ((dGet ctx.incoming nid).getD []) ctx.labels ≠ [] →
      roundUserPrompt ctx r prev nid =
        "These are the solutions to the problem from other agents:\n" ++
        pyJoin "\n"
          ((gatherNeighborResponses prev ((dGet ctx.incoming nid).getD []) ctx.labels).map
            (fun resp => "One agent solution: " ++ resp)) ++
        "\n\nUsing the solutions from other agents as additional information,\ncan you provide your answer to the problem?\nThe original problem is " ++
        ctx.question ++ "\n" := by
    intro hrs
    rw [roundUserPrompt, if_neg hne]
    cases hgs : gatherNeighborResponses prev ((dGet ctx.incoming nid).getD []) ctx.labels with
    | nil => exact absurd hgs hrs
    | cons x xs => simp [build_followup_prompt, hgs]
  refine ⟨htemplate, ?_, ?_⟩
  · intro i hi t ht htne
    have hf : (fun nid2 =>
        match dGet prev nid2 with
        | some t2 => if t2 = "" then none else some (((dGet ctx.labels nid2).getD nid2) ++ ": " ++ t2)
        | none => none) i = some (((dGet ctx.labels i).getD i) ++ ": " ++ t) := by
      simp [ht, htne]
    have hmem : (((dGet ctx.labels i).getD i) ++ ": " ++ t) ∈
        gatherNeighborResponses prev ((dGet ctx.incoming nid).getD []) ctx.labels :=
      List.mem_filterMap.mpr ⟨i, hi, hf⟩
    have hrs : gatherNeighborResponses prev ((dGet ctx.incoming nid).getD []) ctx.labels ≠ [] :=
      List.ne_nil_of_mem hmem
    obtain ⟨a, b, hab⟩ := pyJoin_mem_parts "\n"
      ((gatherNeighborResponses prev ((dGet ctx.incoming nid).getD []) ctx.labels).map
        (fun resp => "One agent solution: " ++ resp))
      ("One agent solution: " ++ (((dGet ctx.labels i).getD i) ++ ": " ++ t))
      (List.mem_map.mpr ⟨_, hmem, rfl⟩)
    have hdata : (roundUserPrompt ctx r prev nid).data =
        (("These are the solutions to the problem from other agents:\n").data ++ a ++
          ("One agent solution: ").data) ++
        (((dGet ctx.labels i).getD i) ++ ": " ++ t).data ++
        (b ++ ("\n\nUsing the solutions from other agents as additional information,\ncan you provide your answer to the problem?\nThe original problem is ").data ++
          ctx.question.data ++ ("\n").data) := by
      rw [htemplate hrs]
      simp only [data_append, hab, List.append_assoc]
    rw [hdata]
    exact containsSub_of_parts _ _ _
  · intro hall
    rw [roundUserPrompt, if_neg hne,
      gatherNeighborResponses_nil prev ((dGet ctx.incoming nid).getD []) ctx.labels hall]
    rfl

/-- Witness for C5: in the fixture, node `b`'s round-2 prompt contains node
`a`'s previous-round line. -/
theorem c5_followup_prompt_witness :
    containsSub (((dGet ctxW.labels "a").getD "a") ++ ": " ++ "Prev text").data
      (roundUserPrompt ctxW 2 [("a", "Prev text")] "b").data = true :=
  (c5_followup_prompt ctxW 2 [("a", "Prev text")] "b" (by decide)).2.1 "a" (by decide)
    "Prev text" rfl (by decide)

/-! ## Scheduler history lemmas -/

theorem nodeStep_ok_inv (gen : String → List Msg → String) (ctx : Ctx) (r : Nat)
    (st : SchedState) (n : NodeRec) (st2 : SchedState) (evs : List Event)
    (h : nodeStep gen ctx r st n = Except.ok (st2, evs)) :
    ∃ mt pos cm,
      parse_summary_json (stepContent gen ctx r st n) ((dGet ctx.outgoing n.id).getD [])
        ctx.labels r = Except.ok (mt, pos, cm) ∧
      st2 = { histories := dSet st.histories n.id
                (stepCallHist ctx r st n ++
                  [Msg.assistant (stepContent gen ctx r st n) ((dGet ctx.labels n.id).getD n.id)]),
              responses := dSet st.responses r
                (dSet ((dGet st.responses r).getD []) n.id mt) } := by
  simp only [nodeStep] at h
  split at h
  next e heq => cases h
  next mt pos cm heq =>
    injection h with hpair
    injection hpair with hst hevs
    exact ⟨mt, pos, cm, heq, hst.symm⟩

theorem nodeStep_ok_state (gen : String → List Msg → String) (ctx : Ctx) (r : Nat)
    (st : SchedState) (n : NodeRec) (st2 : SchedState) (evs : List Event)
    (h : nodeStep gen ctx r st n = Except.ok (st2, evs)) :
    dGet st2.histories n.id =
      some (histUpdate gen ctx r ((dGet st.responses (r - 1)).getD []) n
        ((dGet st.histories n.id).getD [])) ∧
    (∀ k, ¬ k = n.id → dGet st2.histories k = dGet st.histories k) ∧
    (∀ q, ¬ q = r → dGet st2.responses q = dGet st.responses q) := by
  obtain ⟨mt, pos, cm, hp, hst⟩ := nodeStep_ok_inv gen ctx r st n st2 evs h
  subst hst
  refine ⟨?_, ?_, ?_⟩
  · rw [dGet_dSet, if_pos rfl]
    rfl
  · intro k hk
    rw [dGet_dSet, if_neg hk]
  · intro q hq
    rw [dGet_dSet, if_neg hq]

theorem stepNodes_cons_ok (gen : String → List Msg → String) (ctx : Ctx) (r : Nat)
    (m : NodeRec) (ms : List NodeRec) (st st2 : SchedState) (evs : List Event)
    (h : stepNodes gen ctx r (m :: ms) st = Except.ok (st2, evs)) :
    ∃ st1 evs1 evs2, nodeStep gen ctx r st m = Except.ok (st1, evs1) ∧
      stepNodes gen ctx r ms st1 = Except.ok (st2, evs2) ∧ evs = evs1 ++ evs2 := by
  simp only [stepNodes] at h
  split at h
  next e heq => cases h
  next st1 evs1 heq1 =>
    split at h
    next e heq => cases h
    next st2x evs2 heq2 =>
      injection h with hpair
      injection hpair with hst hevs
      subst hst
      exact ⟨st1, evs1, evs2, heq1, heq2, hevs.symm⟩

theorem runRounds_succ_ok (gen : String → List Msg → String) (ctx : Ctx) (R : Nat)
    (st : SchedState) (evs : List Event)
    (h : runRounds gen ctx (R + 1) = Except.ok (st, evs)) :
    ∃ st0 evs0 evs1, runRounds gen ctx R = Except.ok (st0, evs0) ∧
      roundStep gen ctx (R + 1) st0 = Except.ok (st, evs1) ∧ evs = evs0 ++ evs1 := by
  simp only [runRounds] at h
  split at h
  next e heq => cases h
  next st0 evs0 heq0 =>
    split at h
    next e heq => cases h
    next st1 evs1 heq1 =>
      injection h with hpair
      injection hpair with hst hevs
      subst hst
      exact ⟨st0, evs0, evs1, heq0, heq1, hevs.symm⟩

theorem stepNodes_frame (gen : String → List Msg → String) (ctx : Ctx) (r : Nat) :
    ∀ (ns : List NodeRec) (st st2 : SchedState) (evs : List Event),
    stepNodes gen ctx r ns st = Except.ok (st2, evs) →
    (∀ k, k ∉ ns.map NodeRec.id → dGet st2.histories k = dGet st.histories k) ∧
    (∀ q, ¬ q = r → dGet st2.responses q = dGet st.responses q) := by
  intro ns
  induction ns with
  | nil =>
    intro st st2 evs h
    cases h
    exact ⟨fun _ _ => rfl, fun _ _ => rfl⟩
  | cons m ms ih =>
    intro st st2 evs h
    obtain ⟨st1, evs1, evs2, h1, h2, _⟩ := stepNodes_cons_ok gen ctx r m ms st st2 evs h
    obtain ⟨hn1, hn2, hn3⟩ := nodeStep_ok_state gen ctx r st m st1 evs1 h1
    obtain ⟨hf1, hf2⟩ := ih st1 st2 evs2 h2
    constructor
    · intro k hk
      simp only [List.map_cons, List.mem_cons] at hk
      push_neg at hk
      rw [hf1 k hk.2, hn2 k hk.1]
    · intro q hq
      rw [hf2 q hq, hn3 q hq]

theorem stepNodes_hist (gen : String → List Msg → String) (ctx : Ctx) (r : Nat)
    (hr : ¬ r = 0) :
    ∀ (ns : List NodeRec) (st st2 : SchedState) (evs : List Event),
    (ns.map NodeRec.id).Nodup →
    stepNodes gen ctx r ns st = Except.ok (st2, evs) →
    ∀ n ∈ ns, dGet st2.histories n.id =
      some (histUpdate gen ctx r ((dGet st.responses (r - 1)).getD []) n
        ((dGet st.histories n.id).getD [])) := by
  intro ns
  induction ns with
  | nil =>
    intro st st2 evs _ _ n hn
    cases hn
  | cons m ms ih =>
    intro st st2 evs hnd h n hn
    obtain ⟨st1, evs1, evs2, h1, h2, _⟩ := stepNodes_cons_ok gen ctx r m ms st st2 evs h
    simp only [List.map_cons, List.nodup_cons] at hnd
    obtain ⟨hn1, hn2, hn3⟩ := nodeStep_ok_state gen ctx r st m st1 evs1 h1
    rcases List.mem_cons.mp hn with hnm | hnms
    · subst hnm
      obtain ⟨hf1, _⟩ := stepNodes_frame gen ctx r ms st1 st2 evs2 h2
      rw [hf1 n.id hnd.1, hn1]
    · have hne : ¬ n.id = m.id := by
        intro he
        exact hnd.1 (he ▸ List.mem_map.mpr ⟨n, hnms, rfl⟩)
      have hq : ¬ (r - 1) = r := by omega
      have hih := ih st1 st2 evs2 hnd.2 h2 n hnms
      rw [hih, hn3 (r - 1) hq, hn2 n.id hne]

theorem roundStep_hist (gen : String → List Msg → String) (ctx : Ctx) (r : Nat)
    (st st2 : SchedState) (evs : List Event) (hr : ¬ r = 0)
    (hnd : (ctx.nodes.map NodeRec.id).Nodup)
    (h : roundStep gen ctx r st = Except.ok (st2, evs)) :
    ∀ n ∈ ctx.nodes, dGet st2.histories n.id =
      some (histUpdate gen ctx r ((dGet st.responses (r - 1)).getD []) n
        ((dGet st.histories n.id).getD [])) := by
  intro n hn
  have hq : ¬ (r - 1) = r := by omega
  have hmain := stepNodes_hist gen ctx r hr ctx.nodes
    { st with responses := dSet st.responses r [] } st2 evs hnd h n hn
  rw [hmain]
  simp only [dGet_dSet, if_neg hq]

theorem initState_hist (ctx : Ctx) (n : NodeRec)
    (hnd : (ctx.nodes.map NodeRec.id).Nodup) (hn : n ∈ ctx.nodes) :
    dGet (initState ctx).histories n.id = some [Msg.system (sysPromptOf ctx n 1)] := by
  simpa [initState] using
    dGet_foldl_dSet_nodup NodeRec.id (fun m => [Msg.system (sysPromptOf ctx m 1)])
      ctx.nodes [] n hnd hn

theorem runRounds_len (gen : String → List Msg → String) (ctx : Ctx)
    (hnd : (ctx.nodes.map NodeRec.id).Nodup) :
    ∀ (R : Nat) (st : SchedState) (evs : List Event),
    runRounds gen ctx R = Except.ok (st, evs) →
    ∀ n ∈ ctx.nodes, ∃ h, dGet st.histories n.id = some h ∧ h ≠ [] ∧ h.length = 1 + 2 * R := by
  intro R
  induction R with
  | zero =>
    intro st evs h n hn
    have hst : st = initState ctx := by
      cases h
      rfl
    subst hst
    exact ⟨[Msg.system (sysPromptOf ctx n 1)], initState_hist ctx n hnd hn, by simp, by simp⟩
  | succ R ih =>
    intro st evs h n hn
    obtain ⟨st0, evs0, evs1, h0, h1, _⟩ := runRounds_succ_ok gen ctx R st evs h
    obtain ⟨h0l, hh0, hne0, hlen0⟩ := ih st0 evs0 h0 n hn
    have hupd := roundStep_hist gen ctx (R + 1) st0 st evs1 (by omega) hnd h1 n hn
    rw [hh0] at hupd
    refine ⟨_, hupd, ?_, ?_⟩
    · simp [histUpdate]
    · simp only [histUpdate, List.length_append, List.length_set, Option.getD_some,
        List.length_cons, List.length_nil]
      omega

/-- C9: (with pairwise distinct node ids) for every node and every round of
a run that completes round `R + 1`: after round `R` the node's history has
`1 + 2R` messages, and round `R + 1` transforms it by replacing position 0
with the round-`(R+1)` system message (keeping the rest of the old history,
so all non-system messages are append-only) and appending exactly one user
turn (the round's prompt) and one assistant turn (the backend reply), giving
`1 + 2(R+1)` messages. -/
theorem c9_history_invariant (gen : String → List Msg → String) (ctx : Ctx) (R : Nat)
    (n : NodeRec) (hnd : (ctx.nodes.map NodeRec.id).Nodup) (hm : n ∈ ctx.nodes)
    (hok : (schedAfter gen ctx (R + 1)).isSome = true) :
    ∃ h, histAfter gen ctx R n.id = some h ∧ h.length = 1 + 2 * R ∧
      histAfter gen ctx (R + 1) n.id =
        some (Msg.system (sysPromptOf ctx n (R + 1)) ::
          (h.tail ++ [Msg.user (promptInRound gen ctx (R + 1) n.id) "user",
            Msg.assistant (contentOf gen ctx (R + 1) n) ((dGet ctx.labels n.id).getD n.id)])) ∧
      ((histAfter gen ctx (R + 1) n.id).getD []).length = 1 + 2 * (R + 1) := by
  cases hrun : runRounds gen ctx (R + 1) with
  | error e => rw [schedAfter, hrun] at hok; cases hok
  | ok p =>
    obtain ⟨st, evs⟩ := p
    obtain ⟨st0, evs0, evs1, h0, h1, _⟩ := runRounds_succ_ok gen ctx R st evs hrun
    obtain ⟨h0l, hh0, hne0, hlen0⟩ := runRounds_len gen ctx hnd R st0 evs0 h0 n hm
    have hHA : histAfter gen ctx R n.id = some h0l := by
      rw [histAfter, schedAfter, h0]
      exact hh0
    have hprev : prevTableAfter gen ctx R = (dGet st0.responses R).getD [] := by
      rw [prevTableAfter, schedAfter, h0]
    have hPP : promptInRound gen ctx (R + 1) n.id =
        roundUserPrompt ctx (R + 1) ((dGet st0.responses R).getD []) n.id := by
      rw [promptInRound, Nat.add_sub_cancel, hprev]
    have hupd := roundStep_hist gen ctx (R + 1) st0 st evs1 (by omega) hnd h1 n hm
    rw [hh0] at hupd
    simp only [Option.getD_some, Nat.add_sub_cancel] at hupd
    have hHA1 : histAfter gen ctx (R + 1) n.id =
        some (histUpdate gen ctx (R + 1) ((dGet st0.responses R).getD []) n h0l) := by
      rw [histAfter, schedAfter, hrun]
      exact hupd
    have hCH : callHistOf gen ctx (R + 1) n =
        h0l.set 0 (Msg.system (sysPromptOf ctx n (R + 1))) ++
          [Msg.user (roundUserPrompt ctx (R + 1) ((dGet st0.responses R).getD []) n.id) "user"] := by
      rw [callHistOf, Nat.add_sub_cancel, hHA, hPP]
      rfl
    obtain ⟨hd, tl, rfl⟩ := List.exists_cons_of_ne_nil hne0
    refine ⟨hd :: tl, hHA, hlen0, ?_, ?_⟩
    · rw [hHA1]
      simp only [histUpdate, List.set_cons_zero, List.tail_cons]
      rw [contentOf, hCH]
      simp [List.append_assoc, hPP]
    · rw [hHA1]
      simp only [Option.getD_some, histUpdate, List.set_cons_zero, List.length_append,
        List.length_cons, List.length_nil]
      simp only [List.length_cons] at hlen0
      omega

/-- Witness for C9: node `a` of the fixture after rounds 1 and 2. -/
theorem c9_history_invariant_witness :
    ((histAfter genW ctxW 2 "a").getD []).length = 1 + 2 * 2 := by
  obtain ⟨h, _, _, _, hlen⟩ :=
    c9_history_invariant genW ctxW 1 nodeA (by decide) (by decide) (by rfl)
  exact hlen
